import Mathlib

/-!
# Verification of the qv_compress numeric pipeline

A shallow embedding, over exact rational arithmetic, of the core numeric
functions of the `qv_compress` repository:

* `qv_compress/utils.py` — `spread_tag`, `remove_deletions_and_skips`,
  `fix_mergeqv`, `cmph5_chunker`;
* `qv_compress/code_book.py` — `make_data_clusterable`, `convert_to_raw`,
  `read_sam`;
* `qv_compress/quantize.py` — `get_code_indices`, `run_length_encode`,
  the per-chunk loop of `add_vqs_to_file`.

Feature matrices (numpy 2-D float arrays, rows = observations, columns =
feature channels) are modelled as lists of rows of rationals.  `numpy.std`
computes the square root of the population variance; we model the square
root with `Rat.sqrt`, which agrees with the float computation on the
perfect-square variances used in every concrete instance below.
-/

/-- A feature matrix: a list of rows, each row a list of rational values.
Models a 2-D numpy array of floats (rows = observations). -/
abbrev Mat : Type := List (List ℚ)

/-- Map a function over a list together with the position of each element,
starting the position count at `i`. -/
def mapWithIdx {α β : Type} (f : Nat → α → β) : Nat → List α → List β
  | _, [] => []
  | i, x :: xs => f i x :: mapWithIdx f (i + 1) xs

/-- The entry of matrix `m` at row `i`, column `j` (0 when out of range). -/
def entry (m : Mat) (i j : Nat) : ℚ := (m.getD i []).getD j 0

/-- Apply `f` to every element of column `j` of `m`, leaving every other
column unchanged.  Models a numpy columnwise in-place update such as
`ary[:, j][mask] = ...` as a pure function on the matrix value. -/
def mapCol (j : Nat) (f : ℚ → ℚ) (m : Mat) : Mat :=
  m.map (fun r => mapWithIdx (fun k x => if k = j then f x else x) 0 r)

/-- `utils.TAG_ASSIGNMENTS`: the six defined tag symbols, as
(ASCII code, substitute code) pairs: `-` 45→0, `A` 65→1, `C` 67→2,
`G` 71→3, `N` 78→4, `T` 84→5. -/
def TAG_ASSIGNMENTS : List (ℚ × ℚ) :=
  [(45, 0), (65, 1), (67, 2), (71, 3), (78, 4), (84, 5)]

/-- One step of the `spread_tag` loop body: replace a value equal to the
key with the substitute (or the reverse when `inverse`). -/
def tagStep (inverse : Bool) (x : ℚ) (kv : ℚ × ℚ) : ℚ :=
  if inverse then (if x = kv.2 then kv.1 else x)
  else (if x = kv.1 then kv.2 else x)

/-- The effect of the full `spread_tag` assignment loop on a single value
of the tag column (the loop body is an elementwise columnwise update, so
the loop acts independently on each element as a fold over
`TAG_ASSIGNMENTS`). -/
def spreadVal (inverse : Bool) (x : ℚ) : ℚ :=
  TAG_ASSIGNMENTS.foldl (tagStep inverse) x

/-- `utils.spread_tag`: replace tag values in column `tag_index` with
equidistant substitute codes (or convert back when `inverse`). -/
def spread_tag (ary : Mat) (tag_index : Nat) (inverse : Bool) : Mat :=
  mapCol tag_index (spreadVal inverse) ary

/-- Indices of rows of `m` whose column `j` equals `v`; models
`numpy.where(ary[:, j] == v)[0]`. -/
def whereEq (m : Mat) (j : Nat) (v : ℚ) : List Nat :=
  (List.range m.length).filter (fun i => (m.getD i []).getD j 0 == v)

/-- Delete the rows of `m` whose index occurs in `idxs`, keeping the
remaining rows in order; models `numpy.delete(ary, idxs, 0)`. -/
def deleteRows (m : Mat) (idxs : List Nat) : Mat :=
  ((List.range m.length).filter (fun i => !(idxs.contains i))).map
    (fun i => m.getD i [])

/-- `utils.remove_deletions_and_skips`: delete every row whose
`sentinel_index` column is 0 (skip) or 255 (deletion). -/
def remove_deletions_and_skips (ary : Mat) (sentinel_index : Nat) : Mat :=
  deleteRows ary (whereEq ary sentinel_index 0 ++ whereEq ary sentinel_index 255)

/-- `utils.fix_mergeqv`: set every value of the merge column at or above
`new_extreme_value` to the literal 30 (the source writes the constant 30,
not `new_extreme_value`). -/
def fix_mergeqv (ary : Mat) (merge_index : Nat) (new_extreme_value : ℚ) : Mat :=
  mapCol merge_index (fun x => if new_extreme_value ≤ x then 30 else x) ary

/-- Column `j` of matrix `m` (entries read with default 0). -/
def getCol (j : Nat) (m : Mat) : List ℚ := m.map (fun r => r.getD j 0)

/-- Number of columns of `m` (the length of its first row). -/
def ncols (m : Mat) : Nat := (m.headD []).length

/-- Mean of a list of rationals (0 for the empty list, as 0/0 = 0 in ℚ). -/
def colMean (xs : List ℚ) : ℚ := xs.sum / (xs.length : ℚ)

/-- Population variance of a list of rationals, as used by `numpy.std`
with its default `ddof=0`. -/
def colVar (xs : List ℚ) : ℚ :=
  ((xs.map (fun x => (x - colMean xs) * (x - colMean xs))).sum) / (xs.length : ℚ)

/-- Population standard deviation; `numpy.std` takes the square root of
the variance, modelled by `Rat.sqrt` (exact on perfect squares). -/
def colStd (xs : List ℚ) : ℚ := Rat.sqrt (colVar xs)

/-- `numpy.std(m, axis=0)`: the per-column standard deviations. -/
def matStd (m : Mat) : List ℚ :=
  (List.range (ncols m)).map (fun j => colStd (getCol j m))

/-- The zero-replacement loop of `make_data_clusterable`: every zero
entry of the scale vector becomes 1. -/
def fixZeros (s : List ℚ) : List ℚ := s.map (fun x => if x = 0 then 1 else x)

/-- `clusterable_array / std_dev`: divide column `k` by `s[k]`
(numpy row-broadcast division). -/
def divCols (m : Mat) (s : List ℚ) : Mat :=
  m.map (fun r => mapWithIdx (fun k x => x / s.getD k 1) 0 r)

/-- `clusterable_array * std_dev`: multiply column `k` by `s[k]`. -/
def mulCols (m : Mat) (s : List ℚ) : Mat :=
  m.map (fun r => mapWithIdx (fun k x => x * s.getD k 1) 0 r)

/-- `code_book.make_data_clusterable`, step 1: remove sentinel rows
(sentinel column = index of "InsertionQV") when `remove_skips`, else the
fresh copy `numpy.array(training_array, copy=True)`. -/
def mdcStep1 (m : Mat) (feature_list : List String) (remove_skips : Bool) : Mat :=
  if remove_skips then
    remove_deletions_and_skips m (feature_list.indexOf "InsertionQV")
  else m

/-- `make_data_clusterable`, step 2: spread the tag column when the
schema contains "DeletionTag". -/
def mdcStep2 (m : Mat) (feature_list : List String) (remove_skips : Bool) : Mat :=
  if "DeletionTag" ∈ feature_list then
    spread_tag (mdcStep1 m feature_list remove_skips)
      (feature_list.indexOf "DeletionTag") false
  else mdcStep1 m feature_list remove_skips

/-- `make_data_clusterable`, step 3: fix the merge column (threshold
argument 40 at the call site) when the schema contains "MergeQV". -/
def mdcStep3 (m : Mat) (feature_list : List String) (remove_skips : Bool) : Mat :=
  if "MergeQV" ∈ feature_list then
    fix_mergeqv (mdcStep2 m feature_list remove_skips)
      (feature_list.indexOf "MergeQV") 40
  else mdcStep2 m feature_list remove_skips

/-- The scale vector used and returned by `make_data_clusterable`: the
per-column standard deviation of the cleaned matrix when `std_dev` is
`none`, else the supplied vector; zeros replaced by 1 in either case. -/
def mdcScale (m : Mat) (feature_list : List String) (std_dev : Option (List ℚ))
    (remove_skips : Bool) : List ℚ :=
  fixZeros (std_dev.getD (matStd (mdcStep3 m feature_list remove_skips)))

/-- `code_book.make_data_clusterable`: returns the whitened
(clusterable) matrix together with the scale vector used. -/
def make_data_clusterable (m : Mat) (feature_list : List String)
    (std_dev : Option (List ℚ)) (remove_skips : Bool) : Mat × List ℚ :=
  (divCols (mdcStep3 m feature_list remove_skips)
      (mdcScale m feature_list std_dev remove_skips),
   mdcScale m feature_list std_dev remove_skips)

/-- `astype('uint8')` on one float value: truncation toward zero, reduced
mod 2^8.  For an exact integer value in [0, 256) it is the identity. -/
def toUint8 (q : ℚ) : ℚ := ((q.num / (q.den : Int)).toNat % 256 : ℕ)

/-- `code_book.convert_to_raw`: multiply by the scale, cast to uint8, and
invert the tag spreading when the schema contains "DeletionTag". -/
def convert_to_raw (clusterable_array : Mat) (feature_list : List String)
    (std_dev : List ℚ) : Mat :=
  let raw := (mulCols clusterable_array std_dev).map (fun r => r.map toUint8)
  if "DeletionTag" ∈ feature_list then
    spread_tag raw (feature_list.indexOf "DeletionTag") true
  else raw

/-- One chunk emitted by `utils.cmph5_chunker`: the alignment-group path
and the half-open row range `[start, stop)` read from that group (the
chunk's data is exactly that slice of the group's feature columns). -/
structure Chunk where
  path : String
  start : Nat
  stop : Nat
deriving Repr, DecidableEq

/-- Number of rows of a chunk. -/
def chunkLen (c : Chunk) : Nat := c.stop - c.start

/-- Total number of rows over a list of chunks. -/
def totalRows (cs : List Chunk) : Nat := (cs.map chunkLen).sum

/-- The inner `while aln_group_pos < aln_group_len` loop of
`cmph5_chunker` for one group: from position `pos` read
`min (glen - pos, chunkSize)` rows at a time.  `fuel` bounds the number
of iterations; it is instantiated with `glen - pos`, which suffices since
every iteration advances `pos` by at least one row when `0 < chunkSize`.
The source loop does not terminate when `chunk_size = 0`; that degenerate
case is modelled as producing nothing, and every theorem below assumes
`0 < chunkSize`. -/
def groupChunkStartsF (chunkSize : Nat) : Nat → Nat → Nat → List (Nat × Nat)
  | 0, _, _ => []
  | fuel + 1, glen, pos =>
    if pos < glen ∧ 0 < chunkSize then
      (pos, pos + min (glen - pos) chunkSize) ::
        groupChunkStartsF chunkSize fuel glen (pos + min (glen - pos) chunkSize)
    else []

/-- The `(start, end)` ranges of the chunks `cmph5_chunker` reads from a
single group of length `glen`, starting at position `pos`. -/
def groupChunkStarts (chunkSize glen pos : Nat) : List (Nat × Nat) :=
  groupChunkStartsF chunkSize (glen - pos) glen pos

/-- All chunks `cmph5_chunker` would emit with no row cap: the groups in
store order, each cut into consecutive ranges. A group is modelled by its
`AlnGroup/Path` entry and the length of its feature datasets. -/
def allChunks (groups : List (String × Nat)) (chunkSize : Nat) : List Chunk :=
  groups.flatMap (fun g =>
    (groupChunkStarts chunkSize g.2 0).map (fun se => ⟨g.1, se.1, se.2⟩))

/-- The `total_rows`/`max_observations` early stop of `cmph5_chunker`:
after emitting each chunk the running total is updated, and the generator
raises `StopIteration` as soon as the total reaches the cap — so the
chunk that reaches the cap is still emitted whole. -/
def applyCap (cap : Nat) : Nat → List Chunk → List Chunk
  | _, [] => []
  | total, c :: rest =>
    if cap ≤ total + chunkLen c then [c]
    else c :: applyCap cap (total + chunkLen c) rest

/-- `utils.cmph5_chunker` as a function from the store's group layout to
the list of emitted chunks (`cap = none` models `max_observations=None`). -/
def cmph5_chunker (groups : List (String × Nat)) (chunkSize : Nat)
    (cap : Option Nat) : List Chunk :=
  match cap with
  | none => allChunks groups chunkSize
  | some m => applyCap m 0 (allChunks groups chunkSize)

/-- The ranges in a list are consecutive starting at `pos`, each
nonempty and ending by `glen`: every range starts where the previous one
ended.  Together with a total-length fact this expresses that the ranges
partition `[pos, glen)` exactly once. -/
def consecFrom (glen : Nat) : Nat → List (Nat × Nat) → Prop
  | _, [] => True
  | p, se :: rest => se.1 = p ∧ p < se.2 ∧ se.2 ≤ glen ∧ consecFrom glen se.2 rest

/-- Sum of the lengths of a list of `(start, end)` ranges. -/
def sumLens : List (Nat × Nat) → Nat
  | [] => 0
  | se :: rest => (se.2 - se.1) + sumLens rest

/-- Squared Euclidean distance between two feature vectors.  `scipy`'s
`vq.vq` minimises the Euclidean distance; the squared distance has the
same minimisers and the same ties. -/
def sqDist (a b : List ℚ) : ℚ :=
  ((a.zip b).map (fun p => (p.1 - p.2) * (p.1 - p.2))).sum

/-- Index of the first minimum of a list of distances, as computed by the
argmin inside `scipy.cluster.vq.vq` (ties go to the lowest index). -/
def argminIdx : List ℚ → Nat
  | [] => 0
  | [_] => 0
  | x :: y :: rest =>
    if (y :: rest).getD (argminIdx (y :: rest)) 0 < x then argminIdx (y :: rest) + 1
    else 0

/-- `scipy.cluster.vq.vq(obs, code_book)`: for each observation row, the
index of the nearest code row. -/
def vq_vq (obs codes : Mat) : List Nat :=
  obs.map (fun o => argminIdx (codes.map (fun c => sqDist o c)))

/-- `quantize.get_code_indices`: whiten the chunk with its own scale
(`std_dev=None`), whiten the raw codes with that same chunk scale, and
assign each row to its nearest code. -/
def get_code_indices (chunk_data raw_codes : Mat) (feature_list : List String) :
    List Nat :=
  let p := make_data_clusterable chunk_data feature_list none false
  let q := make_data_clusterable raw_codes feature_list (some p.2) false
  vq_vq p.1 q.1

/-- The distances that `get_code_indices` minimises for row `i` of a
chunk: squared Euclidean distance from the whitened row to each whitened
code row (the codes whitened with the chunk's scale). -/
def chunkDistances (chunk_data raw_codes : Mat) (feature_list : List String)
    (i : Nat) : List ℚ :=
  let p := make_data_clusterable chunk_data feature_list none false
  let q := make_data_clusterable raw_codes feature_list (some p.2) false
  q.1.map (fun c => sqDist (p.1.getD i []) c)

/-- The per-chunk index computation of the cmp.h5 branch of
`quantize.add_vqs_to_file`: each chunk of the run is passed to
`get_code_indices` with the same raw codes and feature list. -/
def add_vqs_run (chunks : List Mat) (raw_codes : Mat)
    (feature_list : List String) : List (List Nat) :=
  chunks.map (fun c => get_code_indices c raw_codes feature_list)

/-- Modelled from the spec (§4.4): the quantization run the specification
describes, in which only the very first chunk computes a scale
(`scale=None`) and every subsequent chunk, as well as the codebook, is
normalized with that first-chunk scale.  Stated only to be compared with
`add_vqs_run`, the behaviour of the source. -/
def firstChunkScaleRun (chunks : List Mat) (raw_codes : Mat)
    (feature_list : List String) : List (List Nat) :=
  match chunks with
  | [] => []
  | c0 :: rest =>
    let p0 := make_data_clusterable c0 feature_list none false
    let w := (make_data_clusterable raw_codes feature_list (some p0.2) false).1
    vq_vq p0.1 w ::
      rest.map (fun c =>
        vq_vq (make_data_clusterable c feature_list (some p0.2) false).1 w)

/-- The run-length groups of a list of characters, as produced by
`itertools.groupby`: maximal runs as (length, symbol) pairs. -/
def rleAux (c : Char) (n : Nat) : List Char → List (Nat × Char)
  | [] => [(n, c)]
  | x :: xs => if x = c then rleAux c (n + 1) xs else (n, c) :: rleAux x 1 xs

/-- Run-length groups of a character list. -/
def rleGroups : List Char → List (Nat × Char)
  | [] => []
  | x :: xs => rleAux x 1 xs

/-- `quantize.run_length_encode`: concatenate count-then-symbol pairs,
where the count is printed only when the run is longer than 1
(`str(n) if n > 1 else ''`). -/
def run_length_encode (tags_to_encode : String) : String :=
  String.join ((rleGroups tags_to_encode.data).map
    (fun p => (if p.1 > 1 then toString p.1 else "") ++ String.singleton p.2))

/-- A zero matrix, as `numpy.zeros(shape=(rows, cols))`. -/
def zerosMat (rows cols : Nat) : Mat :=
  List.replicate rows (List.replicate cols 0)

/-- One columnwise slice assignment of `read_sam`:
`training_array[startRow:stopRow, colIdx] = vals[:stopRow-startRow]`. -/
def writeColSeg (ta : Mat) (colIdx startRow stopRow : Nat) (vals : List ℚ) : Mat :=
  mapWithIdx (fun r row =>
    if startRow ≤ r ∧ r < stopRow then
      mapWithIdx (fun c x => if c = colIdx then vals.getD (r - startRow) 0 else x) 0 row
    else row) 0 ta

/-- The per-record body of `read_sam`'s while loop: write each feature's
values (a SAM record is modelled as its per-feature numeric value lists,
the `char_to_qv`/`ord` conversions already applied) into the rows
starting at `nrb`, truncated at `numObs`. -/
def readSamRecord (ta : Mat) (nrb numObs : Nat) (rec : List (List ℚ)) : Mat :=
  (List.range rec.length).foldl (fun acc idx =>
    let vals := rec.getD idx []
    writeColSeg acc idx nrb (min (nrb + vals.length) numObs) vals) ta

/-- The `while num_read_bases < num_observations` loop of `read_sam`:
records are consumed until the requested count is reached or the file is
exhausted; `num_read_bases` advances by the length of the last feature's
value list (the loop variable `numeric_values` leaks out of the inner
`for`). -/
def readSamLoop (numObs : Nat) : List (List (List ℚ)) → Mat → Nat → Mat × Nat
  | [], ta, nrb => (ta, nrb)
  | rec :: rest, ta, nrb =>
    if nrb < numObs then
      readSamLoop numObs rest (readSamRecord ta nrb numObs rec)
        (nrb + (rec.getLastD []).length)
    else (ta, nrb)

/-- `code_book.read_sam`.  When fewer bases than requested are read, the
source logs the partial-training warning and then executes
`training.array.resize(...)` — but no variable named `training` exists
(the array is named `training_array`), so the call raises a fatal
`NameError` instead of returning the truncated matrix.  That crash is
modelled as the error result. -/
def read_sam (records : List (List (List ℚ))) (feature_count num_observations : Nat) :
    Except String Mat :=
  let p := readSamLoop num_observations records
    (zerosMat num_observations feature_count) 0
  if p.2 < num_observations then Except.error "NameError"
  else Except.ok p.1

/-- A heap of numpy arrays, addressed by allocation index.  Used to state
aliasing/frame properties of the in-place numpy code faithfully: the
Python helpers `spread_tag` and `fix_mergeqv` mutate the array object
they are given, so `make_data_clusterable` is modelled once more below as
a state transformer on this heap. -/
abbrev PyMem : Type := List Mat

/-- Read the array stored at id `i`. -/
def readArr (mem : PyMem) (i : Nat) : Mat := mem.getD i []

/-- Overwrite the array stored at id `i` (an in-place numpy update). -/
def writeArr (mem : PyMem) (i : Nat) (a : Mat) : PyMem := mem.set i a

/-- Allocate a fresh array, returning the new heap and the fresh id. -/
def allocArr (mem : PyMem) (a : Mat) : PyMem × Nat := (mem ++ [a], mem.length)

/-- `utils.spread_tag` as the in-place mutation it performs: the array at
id `i` is overwritten with its tag-spread value (the function returns
`None` in the source). -/
def spread_tag_st (mem : PyMem) (i tag_index : Nat) (inverse : Bool) : PyMem :=
  writeArr mem i (spread_tag (readArr mem i) tag_index inverse)

/-- `utils.fix_mergeqv` as the in-place mutation it performs. -/
def fix_mergeqv_st (mem : PyMem) (i merge_index : Nat) (new_extreme_value : ℚ) :
    PyMem :=
  writeArr mem i (fix_mergeqv (readArr mem i) merge_index new_extreme_value)

/-- `make_data_clusterable` (with `std_dev=None`) as a heap program:
`numpy.delete` / `numpy.array(..., copy=True)` allocate the fresh
`clusterable_array`, the two helpers mutate that fresh array in place,
and the final whitening division allocates the returned array.  Returns
the final heap, the id of the returned array, and the returned scale. -/
def make_data_clusterable_st (mem : PyMem) (inputId : Nat)
    (feature_list : List String) (remove_skips : Bool) : PyMem × Nat × List ℚ :=
  let m0 := readArr mem inputId
  let p1 := allocArr mem
    (if remove_skips then
      remove_deletions_and_skips m0 (feature_list.indexOf "InsertionQV")
    else m0)
  let mem2 := if "DeletionTag" ∈ feature_list then
      spread_tag_st p1.1 p1.2 (feature_list.indexOf "DeletionTag") false
    else p1.1
  let mem3 := if "MergeQV" ∈ feature_list then
      fix_mergeqv_st mem2 p1.2 (feature_list.indexOf "MergeQV") 40
    else mem2
  let s := fixZeros (matStd (readArr mem3 p1.2))
  let p4 := allocArr mem3 (divCols (readArr mem3 p1.2) s)
  (p4.1, p4.2, s)

lemma mapWithIdx_length {α β : Type} (f : Nat → α → β) (i : Nat) (l : List α) :
    (mapWithIdx f i l).length = l.length := by
  induction l generalizing i with
  | nil => rfl
  | cons x xs ih => simp [mapWithIdx, ih]

lemma mapWithIdx_getD {α β : Type} (f : Nat → α → β) (i k : Nat) (l : List α)
    (da : α) (db : β) (hk : k < l.length) :
    (mapWithIdx f i l).getD k db = f (i + k) (l.getD k da) := by
  induction l generalizing i k with
  | nil => simp at hk
  | cons x xs ih =>
    cases k with
    | zero => simp [mapWithIdx]
    | succ k =>
      have hk' : k < xs.length := by simpa using hk
      have := ih (i + 1) k hk'
      simpa [mapWithIdx, Nat.add_assoc, Nat.add_comm 1 k] using this

lemma getD_map_lt {α β : Type} (g : α → β) (l : List α) (i : Nat) (da : α) (db : β)
    (hi : i < l.length) : (l.map g).getD i db = g (l.getD i da) := by
  rw [List.getD_eq_getElem?_getD, List.getElem?_map,
    List.getElem?_eq_getElem hi, List.getD_eq_getElem?_getD,
    List.getElem?_eq_getElem hi]
  rfl

lemma getD_map_ge {α β : Type} (g : α → β) (l : List α) (i : Nat) (db : β)
    (hi : l.length ≤ i) : (l.map g).getD i db = db := by
  rw [List.getD_eq_getElem?_getD, List.getElem?_map, List.getElem?_eq_none (by simpa)]
  rfl

lemma length_mapCol (j : Nat) (f : ℚ → ℚ) (m : Mat) :
    (mapCol j f m).length = m.length := by simp [mapCol]

lemma row_mapCol (j : Nat) (f : ℚ → ℚ) (m : Mat) (i : Nat) (hi : i < m.length) :
    (mapCol j f m).getD i [] =
      mapWithIdx (fun k x => if k = j then f x else x) 0 (m.getD i []) := by
  simp only [mapCol]
  exact getD_map_lt _ m i [] [] hi

lemma rowlen_mapCol (j : Nat) (f : ℚ → ℚ) (m : Mat) (i : Nat) :
    ((mapCol j f m).getD i []).length = ((m.getD i []).length) := by
  by_cases hi : i < m.length
  · rw [row_mapCol j f m i hi, mapWithIdx_length]
  · have hi' : m.length ≤ i := Nat.le_of_not_lt hi
    simp only [mapCol]
    rw [getD_map_ge _ m i [] hi', List.getD_eq_default _ _ hi']

lemma entry_ge_row (m : Mat) (i k : Nat) (hi : m.length ≤ i) : entry m i k = 0 := by
  rw [entry, List.getD_eq_default _ _ hi]; rfl

lemma entry_ge_col (m : Mat) (i k : Nat) (hk : (m.getD i []).length ≤ k) :
    entry m i k = 0 := by
  rw [entry, List.getD_eq_default _ _ hk]

lemma length_divCols (m : Mat) (s : List ℚ) : (divCols m s).length = m.length := by
  simp [divCols]

lemma rowlen_divCols (m : Mat) (s : List ℚ) (i : Nat) :
    ((divCols m s).getD i []).length = (m.getD i []).length := by
  by_cases hi : i < m.length
  · rw [divCols, getD_map_lt _ m i [] [] hi, mapWithIdx_length]
  · rw [divCols, getD_map_ge _ m i [] (Nat.le_of_not_lt hi),
      List.getD_eq_default _ _ (Nat.le_of_not_lt hi)]

lemma length_mulCols (m : Mat) (s : List ℚ) : (mulCols m s).length = m.length := by
  simp [mulCols]

lemma rowlen_mulCols (m : Mat) (s : List ℚ) (i : Nat) :
    ((mulCols m s).getD i []).length = (m.getD i []).length := by
  by_cases hi : i < m.length
  · rw [mulCols, getD_map_lt _ m i [] [] hi, mapWithIdx_length]
  · rw [mulCols, getD_map_ge _ m i [] (Nat.le_of_not_lt hi),
      List.getD_eq_default _ _ (Nat.le_of_not_lt hi)]

lemma entry_mapCol (j : Nat) (f : ℚ → ℚ) (m : Mat) (i k : Nat) :
    entry (mapCol j f m) i k =
      if k = j ∧ i < m.length ∧ k < (m.getD i []).length then f (entry m i k)
      else entry m i k := by
  by_cases hi : i < m.length
  · by_cases hk : k < (m.getD i []).length
    · rw [entry, row_mapCol j f m i hi, mapWithIdx_getD _ 0 k _ 0 0 hk, Nat.zero_add]
      by_cases hkj : k = j
      · rw [if_pos hkj, if_pos ⟨hkj, hi, hk⟩]; rfl
      · rw [if_neg hkj, if_neg (by tauto)]; rfl
    · have hk' := Nat.le_of_not_lt hk
      have l0 : entry (mapCol j f m) i k = 0 :=
        entry_ge_col _ _ _ (by rw [rowlen_mapCol]; exact hk')
      have r0 : entry m i k = 0 := entry_ge_col _ _ _ hk'
      rw [if_neg (by tauto), l0, r0]
  · have hi' := Nat.le_of_not_lt hi
    have l0 : entry (mapCol j f m) i k = 0 :=
      entry_ge_row _ _ _ (by rw [length_mapCol]; exact hi')
    have r0 : entry m i k = 0 := entry_ge_row _ _ _ hi'
    rw [if_neg (by tauto), l0, r0]

lemma entry_divCols (m : Mat) (s : List ℚ) (i k : Nat) :
    entry (divCols m s) i k = entry m i k / s.getD k 1 := by
  by_cases hi : i < m.length
  · by_cases hk : k < (m.getD i []).length
    · rw [entry, divCols, getD_map_lt _ m i [] [] hi,
        mapWithIdx_getD _ 0 k _ 0 0 hk, Nat.zero_add]
      rfl
    · have hk' := Nat.le_of_not_lt hk
      have l0 : entry (divCols m s) i k = 0 :=
        entry_ge_col _ _ _ (by rw [rowlen_divCols]; exact hk')
      have r0 : entry m i k = 0 := entry_ge_col _ _ _ hk'
      rw [l0, r0, zero_div]
  · have hi' := Nat.le_of_not_lt hi
    have l0 : entry (divCols m s) i k = 0 :=
      entry_ge_row _ _ _ (by rw [length_divCols]; exact hi')
    have r0 : entry m i k = 0 := entry_ge_row _ _ _ hi'
    rw [l0, r0, zero_div]

lemma entry_mulCols (m : Mat) (s : List ℚ) (i k : Nat) :
    entry (mulCols m s) i k = entry m i k * s.getD k 1 := by
  by_cases hi : i < m.length
  · by_cases hk : k < (m.getD i []).length
    · rw [entry, mulCols, getD_map_lt _ m i [] [] hi,
        mapWithIdx_getD _ 0 k _ 0 0 hk, Nat.zero_add]
      rfl
    · have hk' := Nat.le_of_not_lt hk
      have l0 : entry (mulCols m s) i k = 0 :=
        entry_ge_col _ _ _ (by rw [rowlen_mulCols]; exact hk')
      have r0 : entry m i k = 0 := entry_ge_col _ _ _ hk'
      rw [l0, r0, zero_mul]
  · have hi' := Nat.le_of_not_lt hi
    have l0 : entry (mulCols m s) i k = 0 :=
      entry_ge_row _ _ _ (by rw [length_mulCols]; exact hi')
    have r0 : entry m i k = 0 := entry_ge_row _ _ _ hi'
    rw [l0, r0, zero_mul]

lemma fixZeros_idem (s : List ℚ) : fixZeros (fixZeros s) = fixZeros s := by
  simp only [fixZeros, List.map_map]
  apply List.map_congr_left
  intro x _
  by_cases h : x = 0 <;> simp [h]

lemma fixZeros_pos (s : List ℚ) (hs : ∀ x ∈ s, 0 ≤ x) : ∀ y ∈ fixZeros s, 0 < y := by
  intro y hy
  simp only [fixZeros, List.mem_map] at hy
  obtain ⟨x, hx, rfl⟩ := hy
  by_cases h : x = 0
  · simp [h]
  · simpa [h] using lt_of_le_of_ne (hs x hx) (Ne.symm h)

lemma matStd_nonneg (m : Mat) : ∀ x ∈ matStd m, 0 ≤ x := by
  intro x hx
  simp only [matStd, List.mem_map] at hx
  obtain ⟨j, _, rfl⟩ := hx
  exact Rat.sqrt_nonneg _

lemma fixZeros_getD_pos (s : List ℚ) (hs : ∀ x ∈ s, 0 ≤ x) (k : Nat) :
    0 < (fixZeros s).getD k 1 := by
  by_cases hk : k < s.length
  · have hk' : k < (fixZeros s).length := by simpa [fixZeros] using hk
    have hmem : (fixZeros s).getD k 1 ∈ fixZeros s := by
      rw [List.getD_eq_getElem _ _ hk']
      exact List.getElem_mem hk'
    exact fixZeros_pos s hs _ hmem
  · rw [List.getD_eq_default]
    · exact one_pos
    · simpa [fixZeros] using Nat.le_of_not_lt hk

lemma mdcScale_pos (m : Mat) (feature_list : List String) (remove_skips : Bool)
    (k : Nat) : 0 < (mdcScale m feature_list none remove_skips).getD k 1 :=
  fixZeros_getD_pos _ (matStd_nonneg _) k

lemma mdcScale_ne_zero (m : Mat) (feature_list : List String) (remove_skips : Bool)
    (k : Nat) : (mdcScale m feature_list none remove_skips).getD k 1 ≠ 0 :=
  ne_of_gt (mdcScale_pos m feature_list remove_skips k)

lemma rat_sqrt_zero : Rat.sqrt 0 = 0 := by
  have h := Rat.sqrt_eq (0 : ℚ)
  rw [mul_zero] at h
  rw [h, abs_zero]

lemma colVar_const (xs : List ℚ) (c : ℚ) (h : ∀ x ∈ xs, x = c) : colVar xs = 0 := by
  rcases xs with _ | ⟨y, ys⟩
  · simp [colVar, colMean]
  · have hlen : ((y :: ys).length : ℚ) ≠ 0 :=
      Nat.cast_ne_zero.mpr (Nat.succ_ne_zero ys.length)
    have hsum : (y :: ys).sum = ((y :: ys).length : ℚ) * c := by
      rw [List.sum_eq_card_nsmul (y :: ys) c h, nsmul_eq_mul]
    have hmean : colMean (y :: ys) = c := by
      rw [colMean, hsum, mul_div_cancel_left₀ _ hlen]
    have hz : ((y :: ys).map (fun x => (x - colMean (y :: ys)) * (x - colMean (y :: ys)))).sum = 0 := by
      apply List.sum_eq_zero
      intro z hz
      simp only [List.mem_map] at hz
      obtain ⟨x, hx, rfl⟩ := hz
      rw [hmean, h x hx, sub_self, mul_zero]
    rw [colVar, hz, zero_div]

lemma length_matStd (m : Mat) : (matStd m).length = ncols m := by simp [matStd]

lemma matStd_getD (m : Mat) (j : Nat) (hj : j < ncols m) :
    (matStd m).getD j 1 = colStd (getCol j m) := by
  rw [matStd, getD_map_lt _ _ j 0 1 (by simpa using hj)]
  rw [List.getD_eq_getElem _ _ (by simpa using hj), List.getElem_range]

lemma fixZeros_getD_of_lt (s : List ℚ) (j : Nat) (hj : j < s.length) :
    (fixZeros s).getD j 1 = if s.getD j 1 = 0 then 1 else s.getD j 1 :=
  getD_map_lt _ s j 1 1 hj

lemma mem_deleteRows {m : Mat} {idxs : List Nat} {r : List ℚ}
    (h : r ∈ deleteRows m idxs) : r ∈ m := by
  simp only [deleteRows, List.mem_map] at h
  obtain ⟨i, hi, rfl⟩ := h
  have hlt : i < m.length := List.mem_range.mp (List.mem_filter.mp hi).1
  rw [List.getD_eq_getElem _ _ hlt]
  exact List.getElem_mem hlt

lemma mem_mdcStep1 {m : Mat} {feature_list : List String} {remove_skips : Bool}
    {r : List ℚ} (h : r ∈ mdcStep1 m feature_list remove_skips) : r ∈ m := by
  unfold mdcStep1 at h
  split at h
  · exact mem_deleteRows h
  · exact h

lemma constCol_mapCol (j' : Nat) (f : ℚ → ℚ) (m : Mat) (j W : Nat) (c : ℚ)
    (hrect : ∀ r ∈ m, r.length = W) (hconst : ∀ r ∈ m, r.getD j 0 = c)
    (hj : j < W) :
    (∀ r ∈ mapCol j' f m, r.length = W) ∧
      (∀ r ∈ mapCol j' f m, r.getD j 0 = if j = j' then f c else c) := by
  constructor
  · intro r' hr'
    obtain ⟨r, hr, rfl⟩ := List.mem_map.mp hr'
    rw [mapWithIdx_length]
    exact hrect r hr
  · intro r' hr'
    obtain ⟨r, hr, rfl⟩ := List.mem_map.mp hr'
    have hjr : j < r.length := hrect r hr ▸ hj
    rw [mapWithIdx_getD _ 0 j r 0 0 hjr, Nat.zero_add, hconst r hr]

lemma constCol_mdcStep3 (m : Mat) (feature_list : List String) (remove_skips : Bool)
    (j W : Nat) (c : ℚ)
    (hrect : ∀ r ∈ m, r.length = W) (hconst : ∀ r ∈ m, r.getD j 0 = c)
    (hj : j < W) :
    ∃ cc, (∀ r ∈ mdcStep3 m feature_list remove_skips, r.length = W) ∧
      (∀ r ∈ mdcStep3 m feature_list remove_skips, r.getD j 0 = cc) := by
  have h1r : ∀ r ∈ mdcStep1 m feature_list remove_skips, r.length = W :=
    fun r hr => hrect r (mem_mdcStep1 hr)
  have h1c : ∀ r ∈ mdcStep1 m feature_list remove_skips, r.getD j 0 = c :=
    fun r hr => hconst r (mem_mdcStep1 hr)
  have h2 : ∃ c2, (∀ r ∈ mdcStep2 m feature_list remove_skips, r.length = W) ∧
      (∀ r ∈ mdcStep2 m feature_list remove_skips, r.getD j 0 = c2) := by
    by_cases htag : "DeletionTag" ∈ feature_list
    · have := constCol_mapCol (feature_list.indexOf "DeletionTag") (spreadVal false)
        (mdcStep1 m feature_list remove_skips) j W c h1r h1c hj
      refine ⟨if j = feature_list.indexOf "DeletionTag" then spreadVal false c else c, ?_, ?_⟩
      · simpa only [mdcStep2, if_pos htag, spread_tag] using this.1
      · simpa only [mdcStep2, if_pos htag, spread_tag] using this.2
    · exact ⟨c, by simpa only [mdcStep2, if_neg htag] using h1r,
        by simpa only [mdcStep2, if_neg htag] using h1c⟩
  obtain ⟨c2, h2r, h2c⟩ := h2
  by_cases hmq : "MergeQV" ∈ feature_list
  · have := constCol_mapCol (feature_list.indexOf "MergeQV")
      (fun x => if (40:ℚ) ≤ x then 30 else x)
      (mdcStep2 m feature_list remove_skips) j W c2 h2r h2c hj
    refine ⟨if j = feature_list.indexOf "MergeQV" then (if (40:ℚ) ≤ c2 then 30 else c2) else c2, ?_, ?_⟩
    · simpa only [mdcStep3, if_pos hmq, fix_mergeqv] using this.1
    · simpa only [mdcStep3, if_pos hmq, fix_mergeqv] using this.2
  · exact ⟨c2, by simpa only [mdcStep3, if_neg hmq] using h2r,
      by simpa only [mdcStep3, if_neg hmq] using h2c⟩

lemma ncols_of_rect {m : Mat} {W : Nat} (hrect : ∀ r ∈ m, r.length = W)
    (hne : m ≠ []) : ncols m = W := by
  cases m with
  | nil => exact absurd rfl hne
  | cons r t => exact hrect r (List.mem_cons_self r t)

lemma getCol_const {m : Mat} {j : Nat} {c : ℚ} (h : ∀ r ∈ m, r.getD j 0 = c) :
    ∀ x ∈ getCol j m, x = c := by
  intro x hx
  obtain ⟨r, hr, rfl⟩ := List.mem_map.mp hx
  exact h r hr

/-- C8: for an input matrix with a constant (zero-variance) column `j`,
`make_data_clusterable` with `std_dev=None` produces no undefined value
(every entry of the returned scale is strictly positive, so no division
by zero occurs), the scale entry of column `j` is exactly 1 (the zero
standard deviation is replaced by 1), and column `j` of the whitened
output equals column `j` of the cleaned (tag-remapped, merge-fixed)
matrix.  The hypothesis that the cleaned matrix is nonempty keeps the
exact-arithmetic model faithful (numpy's std of an empty array is NaN). -/
theorem claim_C8_constant_column (m : Mat) (feature_list : List String)
    (remove_skips : Bool) (j W : Nat) (c : ℚ)
    (hrect : ∀ r ∈ m, r.length = W) (hj : j < W)
    (hconst : ∀ r ∈ m, r.getD j 0 = c)
    (hne : mdcStep3 m feature_list remove_skips ≠ []) :
    (∀ x ∈ (make_data_clusterable m feature_list none remove_skips).2, 0 < x)
    ∧ (make_data_clusterable m feature_list none remove_skips).2.getD j 1 = 1
    ∧ getCol j (make_data_clusterable m feature_list none remove_skips).1
        = getCol j (mdcStep3 m feature_list remove_skips) := by
  obtain ⟨cc, h3r, h3c⟩ :=
    constCol_mdcStep3 m feature_list remove_skips j W c hrect hconst hj
  have hnc : ncols (mdcStep3 m feature_list remove_skips) = W := ncols_of_rect h3r hne
  have hjn : j < ncols (mdcStep3 m feature_list remove_skips) := hnc ▸ hj
  have hstd0 : (matStd (mdcStep3 m feature_list remove_skips)).getD j 1 = 0 := by
    rw [matStd_getD _ j hjn, colStd,
      colVar_const _ cc (getCol_const h3c), rat_sqrt_zero]
  have hscale : (make_data_clusterable m feature_list none remove_skips).2.getD j 1 = 1 := by
    show (mdcScale m feature_list none remove_skips).getD j 1 = 1
    rw [mdcScale, Option.getD_none, fixZeros_getD_of_lt _ j
      (by rw [length_matStd]; exact hjn), hstd0, if_pos rfl]
  refine ⟨?_, hscale, ?_⟩
  · exact fixZeros_pos _ (matStd_nonneg _)
  · show getCol j (divCols (mdcStep3 m feature_list remove_skips)
        (mdcScale m feature_list none remove_skips)) = _
    rw [getCol, divCols, List.map_map]
    apply List.map_congr_left
    intro r hr
    have hjr : j < r.length := h3r r hr ▸ hj
    show (mapWithIdx _ 0 r).getD j 0 = r.getD j 0
    rw [mapWithIdx_getD _ 0 j r 0 0 hjr, Nat.zero_add]
    have : (mdcScale m feature_list none remove_skips).getD j 1 = 1 := hscale
    rw [this, div_one]

/-- Witness for C8 at a concrete input: a 2×2 matrix whose first column
is constant. -/
theorem claim_C8_constant_column_witness :
    (∀ x ∈ (make_data_clusterable [[5, 7], [5, 9]] ["DeletionQV", "InsertionQV"] none false).2, 0 < x)
    ∧ (make_data_clusterable [[5, 7], [5, 9]] ["DeletionQV", "InsertionQV"] none false).2.getD 0 1 = 1
    ∧ getCol 0 (make_data_clusterable [[5, 7], [5, 9]] ["DeletionQV", "InsertionQV"] none false).1
        = getCol 0 (mdcStep3 [[5, 7], [5, 9]] ["DeletionQV", "InsertionQV"] false) :=
  claim_C8_constant_column [[5, 7], [5, 9]] ["DeletionQV", "InsertionQV"] false 0 2 5
    (by decide) (by decide) (by decide) (by decide)

lemma filter_range_map {α : Type} (l : List α) (d : α) (q : α → Bool) :
    ((List.range l.length).filter (fun i => q (l.getD i d))).map (fun i => l.getD i d)
      = l.filter q := by
  induction l with
  | nil => simp
  | cons x xs ih =>
    rw [List.length_cons, List.range_succ_eq_map, List.filter_cons]
    by_cases hx : q x
    · simp only [List.getD_cons_zero, hx, if_true, List.map_cons, List.filter_map,
        List.map_map, List.filter_cons, Function.comp_def, List.getD_cons_succ]
      rw [ih]
    · simp only [List.getD_cons_zero, hx, Bool.false_eq_true, if_false, List.filter_map,
        List.map_map, List.filter_cons, Function.comp_def, List.getD_cons_succ]
      rw [ih]

lemma remove_deletions_filter (m : Mat) (sentinel_index : Nat) :
    remove_deletions_and_skips m sentinel_index
      = m.filter (fun r => !(r.getD sentinel_index 0 == 0)
          && !(r.getD sentinel_index 0 == 255)) := by
  unfold remove_deletions_and_skips deleteRows
  rw [List.filter_congr (q := fun i =>
    (fun r => !(r.getD sentinel_index 0 == 0) && !(r.getD sentinel_index 0 == 255))
      (m.getD i []))]
  · exact filter_range_map m []
      (fun r => !(r.getD sentinel_index 0 == 0) && !(r.getD sentinel_index 0 == 255))
  · intro i hi
    have hi' : i < m.length := List.mem_range.mp hi
    have hw : ∀ v : ℚ, i ∈ whereEq m sentinel_index v ↔
        (m.getD i []).getD sentinel_index 0 = v := by
      intro v
      simp [whereEq, List.mem_filter, List.mem_range, hi']
    by_cases h0 : (m.getD i []).getD sentinel_index 0 = 0
    · have hc : (whereEq m sentinel_index 0 ++ whereEq m sentinel_index 255).contains i
          = true :=
        List.elem_iff.mpr (List.mem_append_left _ ((hw 0).mpr h0))
      rw [hc]
      show false = (!((m.getD i []).getD sentinel_index 0 == 0)
        && !((m.getD i []).getD sentinel_index 0 == 255))
      rw [h0]
      decide
    · by_cases h255 : (m.getD i []).getD sentinel_index 0 = 255
      · have hc : (whereEq m sentinel_index 0 ++ whereEq m sentinel_index 255).contains i
            = true :=
          List.elem_iff.mpr (List.mem_append_right _ ((hw 255).mpr h255))
        rw [hc]
        show false = (!((m.getD i []).getD sentinel_index 0 == 0)
          && !((m.getD i []).getD sentinel_index 0 == 255))
        rw [h255]
        decide
      · have hc : (whereEq m sentinel_index 0 ++ whereEq m sentinel_index 255).contains i
            = false := by
          rw [← Bool.not_eq_true]
          intro hc
          rcases List.mem_append.mp (List.elem_iff.mp hc) with hm | hm
          exacts [h0 ((hw 0).mp hm), h255 ((hw 255).mp hm)]
        rw [hc]
        show true = (!((m.getD i []).getD sentinel_index 0 == 0)
          && !((m.getD i []).getD sentinel_index 0 == 255))
        rw [beq_eq_false_iff_ne.mpr h0, beq_eq_false_iff_ne.mpr h255]
        decide

/-- C9: when normalization is called with `drop_sentinel_rows=true`
(`remove_skips=True` in the source), its row-dropping step keeps exactly
those input rows whose designated sentinel column — the "InsertionQV"
column — is neither 0 nor 255, in their original relative order and with
the rows themselves untouched (the tag/merge rewrites and the scaling
happen on later steps of `make_data_clusterable`). -/
theorem claim_C9_sentinel_filter (m : Mat) (feature_list : List String) :
    mdcStep1 m feature_list true
      = m.filter (fun r => !(r.getD (feature_list.indexOf "InsertionQV") 0 == 0)
          && !(r.getD (feature_list.indexOf "InsertionQV") 0 == 255)) :=
  remove_deletions_filter m (feature_list.indexOf "InsertionQV")

/-- C5: evaluating `run_length_encode` on the docstring's own example
input "NNNNNCNNTTC".  The implementation omits the count for runs of
length 1 (`str(n) if n > 1 else ''`), so it returns "5NC2N2TC" — not the
"5N1C2N2T1C" promised by its docstring and by the specification's
scenario. -/
theorem claim_C5_rle_example :
    run_length_encode "NNNNNCNNTTC" = "5NC2N2TC"
    ∧ run_length_encode "NNNNNCNNTTC" ≠ "5N1C2N2T1C" := by
  constructor
  · rfl
  · decide

/-- C4: evaluating `read_sam` on a SAM store that provides fewer bases
(one record, one base, two features) than the requested
`num_observations = 3`.  The source logs the partial-training warning and
then crashes with a `NameError` (`training.array` instead of
`training_array`), so no truncated training matrix is ever returned. -/
theorem claim_C4_partial_training_crash :
    read_sam [[[1], [2]]] 2 3 = Except.error "NameError" := by rfl

/-- C2 counterexample: the claim says normalization clamps every MergeQV
value at or above 30 down to 30.  On the 1×1 matrix [[35]] with schema
["MergeQV"] (scale 1 supplied, so only the merge fix acts), the source
leaves 35 unchanged — the clamp only fires at or above the call-site
threshold 40 — so a value that is ≥ 30 is not clamped to 30. -/
theorem claim_C2_counterexample :
    (make_data_clusterable [[35]] ["MergeQV"] (some [1]) false).1 = [[35]]
    ∧ (30 : ℚ) ≤ 35
    ∧ (make_data_clusterable [[35]] ["MergeQV"] (some [1]) false).1 ≠ [[30]] := by
  have h2 : mdcStep2 [[35]] ["MergeQV"] false = [[(35 : ℚ)]] := by
    rw [mdcStep2, if_neg (by decide)]
    rfl
  have h3 : mdcStep3 [[35]] ["MergeQV"] false = [[(35 : ℚ)]] := by
    rw [mdcStep3, if_pos (by decide), h2, List.indexOf_cons_self]
    norm_num [fix_mergeqv, mapCol, mapWithIdx]
  have hs : mdcScale [[35]] ["MergeQV"] (some [1]) false = [1] := by
    norm_num [mdcScale, fixZeros]
  have h1 : (make_data_clusterable [[35]] ["MergeQV"] (some [1]) false).1 = [[35]] := by
    show divCols (mdcStep3 [[35]] ["MergeQV"] false)
      (mdcScale [[35]] ["MergeQV"] (some [1]) false) = [[35]]
    rw [h3, hs]
    norm_num [divCols, mapWithIdx]
  refine ⟨h1, by norm_num, ?_⟩
  rw [h1]
  intro hcon
  norm_num at hcon

/-- C2 amended: when the schema contains "MergeQV", the merge-fix step of
normalization sets every MergeQV value at or above 40 to exactly 30 and
leaves every value below 40 (including the whole range [30, 40))
unchanged, acting on the tag-remapped matrix `mdcStep2`. -/
theorem claim_C2_amended (m : Mat) (feature_list : List String)
    (remove_skips : Bool) (i : Nat) (hmq : "MergeQV" ∈ feature_list)
    (hi : i < (mdcStep2 m feature_list remove_skips).length)
    (hrow : feature_list.indexOf "MergeQV"
      < ((mdcStep2 m feature_list remove_skips).getD i []).length) :
    entry (mdcStep3 m feature_list remove_skips) i (feature_list.indexOf "MergeQV")
      = if 40 ≤ entry (mdcStep2 m feature_list remove_skips) i
            (feature_list.indexOf "MergeQV")
        then 30
        else entry (mdcStep2 m feature_list remove_skips) i
            (feature_list.indexOf "MergeQV") := by
  simp only [mdcStep3, if_pos hmq, fix_mergeqv]
  rw [entry_mapCol]
  rw [if_pos ⟨rfl, hi, hrow⟩]

/-- Witness for the amended C2 at a concrete input: the sentinel value
100 (schema ["MergeQV"], one row). -/
theorem claim_C2_amended_witness :
    entry (mdcStep3 [[100]] ["MergeQV"] false) 0 (List.indexOf "MergeQV" ["MergeQV"])
      = if 40 ≤ entry (mdcStep2 [[100]] ["MergeQV"] false) 0
            (List.indexOf "MergeQV" ["MergeQV"])
        then 30
        else entry (mdcStep2 [[100]] ["MergeQV"] false) 0
            (List.indexOf "MergeQV" ["MergeQV"]) :=
  claim_C2_amended [[100]] ["MergeQV"] false 0 (by decide) (by decide) (by decide)

lemma length_mdcStep2_nofilter (m : Mat) (feature_list : List String) :
    (mdcStep2 m feature_list false).length = m.length := by
  by_cases h2 : "DeletionTag" ∈ feature_list <;>
    simp [mdcStep2, mdcStep1, h2, spread_tag, length_mapCol]

lemma rowlen_mdcStep2_nofilter (m : Mat) (feature_list : List String) (i : Nat) :
    ((mdcStep2 m feature_list false).getD i []).length = (m.getD i []).length := by
  by_cases h2 : "DeletionTag" ∈ feature_list
  · unfold mdcStep2 spread_tag
    rw [if_pos h2, rowlen_mapCol]
    rfl
  · unfold mdcStep2
    rw [if_neg h2]
    rfl

lemma length_mdcStep3_nofilter (m : Mat) (feature_list : List String) :
    (mdcStep3 m feature_list false).length = m.length := by
  by_cases h3 : "MergeQV" ∈ feature_list <;>
    simp [mdcStep3, h3, fix_mergeqv, length_mapCol, length_mdcStep2_nofilter]

lemma rowlen_mdcStep3_nofilter (m : Mat) (feature_list : List String) (i : Nat) :
    ((mdcStep3 m feature_list false).getD i []).length = (m.getD i []).length := by
  by_cases h3 : "MergeQV" ∈ feature_list
  · unfold mdcStep3 fix_mergeqv
    rw [if_pos h3, rowlen_mapCol, rowlen_mdcStep2_nofilter]
  · unfold mdcStep3
    rw [if_neg h3, rowlen_mdcStep2_nofilter]

lemma rowlen_map_rows (g : List ℚ → List ℚ) (hg : ∀ r, (g r).length = r.length)
    (m : Mat) (i : Nat) : ((m.map g).getD i []).length = (m.getD i []).length := by
  by_cases hi : i < m.length
  · rw [getD_map_lt _ m i [] [] hi, hg]
  · rw [getD_map_ge _ m i [] (Nat.le_of_not_lt hi),
      List.getD_eq_default _ _ (Nat.le_of_not_lt hi)]

lemma entry_map_toUint8 (m : Mat) (i j : Nat) (hi : i < m.length)
    (hj : j < (m.getD i []).length) :
    entry (m.map (fun r => r.map toUint8)) i j = toUint8 (entry m i j) := by
  rw [entry, getD_map_lt _ m i [] [] hi, getD_map_lt _ _ j 0 0 hj]
  rfl

lemma toUint8_coe_nat (n : ℕ) (h : n < 256) : toUint8 (n : ℚ) = n := by
  unfold toUint8
  rw [Rat.num_natCast, Rat.den_natCast]
  congr 1
  have h1 : ((n : ℤ) / ((1 : ℕ) : ℤ)) = (n : ℤ) := by simp
  rw [h1, Int.toNat_natCast, Nat.mod_eq_of_lt h]

lemma indexOf_ne_of_mem_ne {l : List String} {a b : String} (hab : a ≠ b)
    (ha : a ∈ l) (hb : b ∈ l) : l.indexOf a ≠ l.indexOf b := by
  intro h
  have h1 := List.getElem_indexOf (List.indexOf_lt_length.mpr ha) (l := l) (a := a)
  have h2 := List.getElem_indexOf (List.indexOf_lt_length.mpr hb) (l := l) (a := b)
  apply hab
  rw [← h1, ← h2]
  simp only [h]

/-- C6: `convert_to_raw` applied to the whitened matrix produced by
`make_data_clusterable` (with `std_dev=None`, `remove_skips=False`) and
its returned scale reconstructs the original entry exactly (hence "up to
rounding") for every non-categorical entry that the merge clamp does not
alter, and inverts the categorical remap exactly for every DeletionTag
entry whose value is one of the six defined symbol codes. -/
theorem claim_C6_roundtrip (m : Mat) (feature_list : List String) (i j W : Nat)
    (n : ℕ)
    (hrect : ∀ r ∈ m, r.length = W) (hi : i < m.length) (hjW : j < W)
    (hn : entry m i j = n) (hn256 : n < 256)
    (hcase :
      (("DeletionTag" ∈ feature_list → j ≠ feature_list.indexOf "DeletionTag")
        ∧ ("MergeQV" ∈ feature_list → j = feature_list.indexOf "MergeQV" →
            entry m i j < 40))
      ∨ ("DeletionTag" ∈ feature_list ∧ j = feature_list.indexOf "DeletionTag"
          ∧ entry m i j ∈ TAG_ASSIGNMENTS.map Prod.fst)) :
    entry (convert_to_raw (make_data_clusterable m feature_list none false).1
        feature_list (make_data_clusterable m feature_list none false).2) i j
      = entry m i j := by
  have hrowW : (m.getD i []).length = W := by
    rw [List.getD_eq_getElem _ _ hi]
    exact hrect _ (List.getElem_mem hi)
  have hj : j < (m.getD i []).length := by rw [hrowW]; exact hjW
  have hsne : (mdcScale m feature_list none false).getD j 1 ≠ 0 :=
    mdcScale_ne_zero m feature_list false j
  have hback : entry (mulCols (divCols (mdcStep3 m feature_list false)
      (mdcScale m feature_list none false)) (mdcScale m feature_list none false)) i j
      = entry (mdcStep3 m feature_list false) i j := by
    rw [entry_mulCols, entry_divCols, div_mul_cancel₀ _ hsne]
  have hlen3 : i < (mulCols (divCols (mdcStep3 m feature_list false)
      (mdcScale m feature_list none false)) (mdcScale m feature_list none false)).length := by
    rw [length_mulCols, length_divCols, length_mdcStep3_nofilter]
    exact hi
  have hrow3 : j < ((mulCols (divCols (mdcStep3 m feature_list false)
      (mdcScale m feature_list none false)) (mdcScale m feature_list none false)).getD i []).length := by
    rw [rowlen_mulCols, rowlen_divCols, rowlen_mdcStep3_nofilter]
    exact hj
  have hcast : entry ((mulCols (divCols (mdcStep3 m feature_list false)
      (mdcScale m feature_list none false)) (mdcScale m feature_list none false)).map
        (fun r => r.map toUint8)) i j
      = toUint8 (entry (mdcStep3 m feature_list false) i j) := by
    rw [entry_map_toUint8 _ _ _ hlen3 hrow3, hback]
  show entry (convert_to_raw (divCols (mdcStep3 m feature_list false)
      (mdcScale m feature_list none false)) feature_list
      (mdcScale m feature_list none false)) i j = entry m i j
  rcases hcase with ⟨htagimp, hmqimp⟩ | ⟨htag, hjt, hv6⟩
  · have h2 : entry (mdcStep2 m feature_list false) i j = entry m i j := by
      by_cases htag : "DeletionTag" ∈ feature_list
      · unfold mdcStep2 spread_tag
        rw [if_pos htag, entry_mapCol, if_neg (fun hcon => (htagimp htag) hcon.1)]
        rfl
      · unfold mdcStep2
        rw [if_neg htag]
        rfl
    have h3 : entry (mdcStep3 m feature_list false) i j = entry m i j := by
      by_cases hmq : "MergeQV" ∈ feature_list
      · unfold mdcStep3 fix_mergeqv
        rw [if_pos hmq, entry_mapCol]
        by_cases hjm : j = feature_list.indexOf "MergeQV"
        · have he40 : ¬ (40 ≤ entry (mdcStep2 m feature_list false) i j) := by
            rw [h2]
            exact not_le.mpr (hmqimp hmq hjm)
          rw [if_neg he40, ite_self, h2]
        · rw [if_neg (fun hcon => hjm hcon.1), h2]
      · unfold mdcStep3
        rw [if_neg hmq, h2]
    have hval : toUint8 (entry (mdcStep3 m feature_list false) i j) = entry m i j := by
      rw [h3, hn, toUint8_coe_nat n hn256]
    simp only [convert_to_raw]
    by_cases htag : "DeletionTag" ∈ feature_list
    · rw [if_pos htag]
      unfold spread_tag
      rw [entry_mapCol, if_neg (fun hcon => (htagimp htag) hcon.1), hcast, hval]
    · rw [if_neg htag, hcast, hval]
  · have h2 : entry (mdcStep2 m feature_list false) i j
        = spreadVal false (entry m i j) := by
      unfold mdcStep2 spread_tag
      rw [if_pos htag, entry_mapCol, if_pos ⟨hjt, by exact hi, by exact hj⟩]
      rfl
    have hmne : ∀ _ : "MergeQV" ∈ feature_list,
        j ≠ feature_list.indexOf "MergeQV" := by
      intro hmq
      rw [hjt]
      exact indexOf_ne_of_mem_ne (by decide) htag hmq
    have h3 : entry (mdcStep3 m feature_list false) i j
        = spreadVal false (entry m i j) := by
      by_cases hmq : "MergeQV" ∈ feature_list
      · unfold mdcStep3 fix_mergeqv
        rw [if_pos hmq, entry_mapCol, if_neg (fun hcon => hmne hmq hcon.1), h2]
      · unfold mdcStep3
        rw [if_neg hmq, h2]
    have hv : ∃ t : ℕ, spreadVal false (entry m i j) = (t : ℚ) ∧ t < 256
        ∧ spreadVal true ((t : ℚ)) = entry m i j := by
      have hv6' : entry m i j = 45 ∨ entry m i j = 65 ∨ entry m i j = 67
          ∨ entry m i j = 71 ∨ entry m i j = 78 ∨ entry m i j = 84 := by
        simpa [TAG_ASSIGNMENTS] using hv6
      rcases hv6' with h | h | h | h | h | h
      · exact ⟨0, by rw [h]; decide, by decide, by rw [h]; decide⟩
      · exact ⟨1, by rw [h]; decide, by decide, by rw [h]; decide⟩
      · exact ⟨2, by rw [h]; decide, by decide, by rw [h]; decide⟩
      · exact ⟨3, by rw [h]; decide, by decide, by rw [h]; decide⟩
      · exact ⟨4, by rw [h]; decide, by decide, by rw [h]; decide⟩
      · exact ⟨5, by rw [h]; decide, by decide, by rw [h]; decide⟩
    obtain ⟨t, ht1, ht2, ht3⟩ := hv
    have hlen0 : i < ((mulCols (divCols (mdcStep3 m feature_list false)
        (mdcScale m feature_list none false)) (mdcScale m feature_list none false)).map
          (fun r => r.map toUint8)).length := by
      rw [List.length_map]
      exact hlen3
    have hrow0 : j < (((mulCols (divCols (mdcStep3 m feature_list false)
        (mdcScale m feature_list none false)) (mdcScale m feature_list none false)).map
          (fun r => r.map toUint8)).getD i []).length := by
      rw [rowlen_map_rows _ (fun r => List.length_map r toUint8)]
      exact hrow3
    simp only [convert_to_raw]
    rw [if_pos htag]
    unfold spread_tag
    rw [entry_mapCol, if_pos ⟨hjt, hlen0, hrow0⟩, hcast, h3, ht1,
      toUint8_coe_nat t ht2, ht3]

/-- Witness for C6 at a concrete input: schema [DeletionTag, MergeQV],
one row [65, 10]; the tag entry 65 (ASCII 'A') round-trips exactly. -/
theorem claim_C6_roundtrip_witness :
    entry (convert_to_raw
        (make_data_clusterable [[65, 10]] ["DeletionTag", "MergeQV"] none false).1
        ["DeletionTag", "MergeQV"]
        (make_data_clusterable [[65, 10]] ["DeletionTag", "MergeQV"] none false).2) 0 0
      = entry [[65, 10]] 0 0 :=
  claim_C6_roundtrip [[65, 10]] ["DeletionTag", "MergeQV"] 0 0 2 65
    (by decide) (by decide) (by decide) (by decide) (by decide) (Or.inr (by decide))

lemma argminIdx_lt (l : List ℚ) (h : l ≠ []) : argminIdx l < l.length := by
  induction l with
  | nil => contradiction
  | cons x xs ih =>
    cases xs with
    | nil => simp [argminIdx]
    | cons y rest =>
      simp only [argminIdx]
      by_cases hc : (y :: rest).getD (argminIdx (y :: rest)) 0 < x
      · rw [if_pos hc]
        have := ih (List.cons_ne_nil y rest)
        simpa using Nat.succ_lt_succ this
      · rw [if_neg hc]
        simp

lemma argminIdx_le (l : List ℚ) (k : Nat) (hk : k < l.length) :
    l.getD (argminIdx l) 0 ≤ l.getD k 0 := by
  induction l generalizing k with
  | nil => simp at hk
  | cons x xs ih =>
    cases xs with
    | nil =>
      have hk0 : k = 0 := by
        simp at hk
        omega
      subst hk0
      simp [argminIdx]
    | cons y rest =>
      simp only [argminIdx]
      by_cases hc : (y :: rest).getD (argminIdx (y :: rest)) 0 < x
      · rw [if_pos hc, List.getD_cons_succ]
        cases k with
        | zero => rw [List.getD_cons_zero]; exact le_of_lt hc
        | succ y2 =>
          rw [List.getD_cons_succ]
          exact ih y2 (by simpa using hk)
      · rw [if_neg hc, List.getD_cons_zero]
        cases k with
        | zero => rw [List.getD_cons_zero]
        | succ y2 =>
          rw [List.getD_cons_succ]
          exact le_trans (not_lt.mp hc) (ih y2 (by simpa using hk))

lemma argminIdx_first (l : List ℚ) (k : Nat) (hk : k < argminIdx l) :
    l.getD (argminIdx l) 0 < l.getD k 0 := by
  induction l generalizing k with
  | nil => simp [argminIdx] at hk
  | cons x xs ih =>
    cases xs with
    | nil => simp [argminIdx] at hk
    | cons y rest =>
      simp only [argminIdx] at hk ⊢
      by_cases hc : (y :: rest).getD (argminIdx (y :: rest)) 0 < x
      · rw [if_pos hc] at hk ⊢
        rw [List.getD_cons_succ]
        cases k with
        | zero => rw [List.getD_cons_zero]; exact hc
        | succ y2 =>
          rw [List.getD_cons_succ]
          exact ih y2 (by omega)
      · rw [if_neg hc] at hk
        exact absurd hk (Nat.not_lt_zero k)

lemma length_mdc_nofilter (m : Mat) (feature_list : List String)
    (std_dev : Option (List ℚ)) :
    (make_data_clusterable m feature_list std_dev false).1.length = m.length := by
  show (divCols (mdcStep3 m feature_list false) _).length = m.length
  rw [length_divCols, length_mdcStep3_nofilter]

/-- C7: for every row of a chunk, `get_code_indices` assigns the index
of the code minimising the (squared, equivalently plain) Euclidean
distance in the whitened space, over all codebook rows, with ties
resolved to the lowest index. -/
theorem claim_C7_nearest_centroid (chunk_data raw_codes : Mat)
    (feature_list : List String) (i : Nat)
    (hi : i < chunk_data.length) (hc : raw_codes ≠ []) :
    (get_code_indices chunk_data raw_codes feature_list).getD i 0 < raw_codes.length
    ∧ (∀ k, k < raw_codes.length →
        (chunkDistances chunk_data raw_codes feature_list i).getD
            ((get_code_indices chunk_data raw_codes feature_list).getD i 0) 0
          ≤ (chunkDistances chunk_data raw_codes feature_list i).getD k 0)
    ∧ (∀ k, k < (get_code_indices chunk_data raw_codes feature_list).getD i 0 →
        (chunkDistances chunk_data raw_codes feature_list i).getD
            ((get_code_indices chunk_data raw_codes feature_list).getD i 0) 0
          < (chunkDistances chunk_data raw_codes feature_list i).getD k 0) := by
  have hlen1 : (make_data_clusterable chunk_data feature_list none false).1.length
      = chunk_data.length := length_mdc_nofilter _ _ _
  have hlenq : (make_data_clusterable raw_codes feature_list
      (some (make_data_clusterable chunk_data feature_list none false).2) false).1.length
      = raw_codes.length := length_mdc_nofilter _ _ _
  have hdsl : (chunkDistances chunk_data raw_codes feature_list i).length
      = raw_codes.length := by
    show ((make_data_clusterable raw_codes feature_list
      (some (make_data_clusterable chunk_data feature_list none false).2) false).1.map _).length
      = raw_codes.length
    rw [List.length_map, hlenq]
  have hdsne : chunkDistances chunk_data raw_codes feature_list i ≠ [] := by
    intro hnil
    rw [← List.length_eq_zero, hdsl] at hnil
    exact hc (List.length_eq_zero.mp hnil)
  have hassigned : (get_code_indices chunk_data raw_codes feature_list).getD i 0
      = argminIdx (chunkDistances chunk_data raw_codes feature_list i) := by
    show (vq_vq (make_data_clusterable chunk_data feature_list none false).1
      (make_data_clusterable raw_codes feature_list
        (some (make_data_clusterable chunk_data feature_list none false).2) false).1).getD i 0 = _
    unfold vq_vq
    rw [getD_map_lt _ _ i [] 0 (by rw [hlen1]; exact hi)]
    rfl
  rw [hassigned]
  refine ⟨?_, ?_, ?_⟩
  · rw [← hdsl]
    exact argminIdx_lt _ hdsne
  · intro k hk
    exact argminIdx_le _ k (by rw [hdsl]; exact hk)
  · intro k hk
    exact argminIdx_first _ k hk

/-- Witness for C7 at a concrete input: a 2-row chunk against a 2-row
codebook over a single feature. -/
theorem claim_C7_nearest_centroid_witness :
    (get_code_indices [[0], [2]] [[0], [2]] ["InsertionQV"]).getD 0 0 < 2
    ∧ (∀ k, k < ([[0], [2]] : Mat).length →
        (chunkDistances [[0], [2]] [[0], [2]] ["InsertionQV"] 0).getD
            ((get_code_indices [[0], [2]] [[0], [2]] ["InsertionQV"]).getD 0 0) 0
          ≤ (chunkDistances [[0], [2]] [[0], [2]] ["InsertionQV"] 0).getD k 0)
    ∧ (∀ k, k < (get_code_indices [[0], [2]] [[0], [2]] ["InsertionQV"]).getD 0 0 →
        (chunkDistances [[0], [2]] [[0], [2]] ["InsertionQV"] 0).getD
            ((get_code_indices [[0], [2]] [[0], [2]] ["InsertionQV"]).getD 0 0) 0
          < (chunkDistances [[0], [2]] [[0], [2]] ["InsertionQV"] 0).getD k 0) :=
  claim_C7_nearest_centroid [[0], [2]] [[0], [2]] ["InsertionQV"] 0
    (by decide) (by decide)

lemma readArr_writeArr_ne (mem : PyMem) (i j : Nat) (a : Mat) (h : j ≠ i) :
    readArr (writeArr mem i a) j = readArr mem j := by
  unfold readArr writeArr
  rw [List.getD_eq_getElem?_getD, List.getD_eq_getElem?_getD,
    List.getElem?_set_ne (fun hcon => h hcon.symm)]

lemma readArr_append_lt (mem : PyMem) (a : Mat) (j : Nat) (h : j < mem.length) :
    readArr (mem ++ [a]) j = readArr mem j := by
  unfold readArr
  rw [List.getD_eq_getElem?_getD, List.getD_eq_getElem?_getD,
    List.getElem?_append_left h]

lemma length_writeArr (mem : PyMem) (i : Nat) (a : Mat) :
    (writeArr mem i a).length = mem.length := List.length_set mem i a

/-- C10: `make_data_clusterable` allocates a fresh output array and
leaves the caller's input array unchanged on the heap, in both the
`remove_skips` branches — even though `spread_tag` and `fix_mergeqv`
mutate their argument in place, they only ever mutate the freshly
allocated copy (`numpy.delete` result or `numpy.array(..., copy=True)`),
never the input. -/
theorem claim_C10_frame (mem : PyMem) (inputId : Nat)
    (feature_list : List String) (remove_skips : Bool)
    (h : inputId < mem.length) :
    readArr (make_data_clusterable_st mem inputId feature_list remove_skips).1 inputId
      = readArr mem inputId
    ∧ (make_data_clusterable_st mem inputId feature_list remove_skips).2.1 ≠ inputId
    ∧ mem.length ≤ (make_data_clusterable_st mem inputId feature_list remove_skips).2.1 := by
  by_cases htag : "DeletionTag" ∈ feature_list <;>
    by_cases hmq : "MergeQV" ∈ feature_list <;>
      simp only [make_data_clusterable_st, spread_tag_st, fix_mergeqv_st, allocArr,
        htag, hmq, if_true, if_false, ite_true, ite_false, eq_self_iff_true,
        not_true, not_false_iff] <;>
    refine ⟨?_, ?_, ?_⟩
  all_goals try
    (rw [readArr_append_lt _ _ _ (by
        simp only [length_writeArr, List.length_append, List.length_singleton]
        omega)]
     repeat rw [readArr_writeArr_ne _ _ _ _ (Nat.ne_of_lt h)]
     rw [readArr_append_lt _ _ _ h])
  all_goals
    simp only [length_writeArr, List.length_append, List.length_singleton]
  all_goals omega

/-- Witness for C10 at a concrete heap: one stored array [[1, 2]],
schema ["DeletionTag"] (so the in-place tag remap runs). -/
theorem claim_C10_frame_witness :
    readArr (make_data_clusterable_st [[[1, 2]]] 0 ["DeletionTag"] false).1 0
      = readArr [[[1, 2]]] 0
    ∧ (make_data_clusterable_st [[[1, 2]]] 0 ["DeletionTag"] false).2.1 ≠ 0
    ∧ ([[[1, 2]]] : PyMem).length
        ≤ (make_data_clusterable_st [[[1, 2]]] 0 ["DeletionTag"] false).2.1 :=
  claim_C10_frame [[[1, 2]]] 0 ["DeletionTag"] false (by decide)

/-- C1 amended: in the cmp.h5 quantization run, every chunk — not only
the first — has its scale computed from that chunk itself
(`std_dev=None`), and the codebook is then whitened with that same
per-chunk scale (never with a scale recomputed from the codebook): the
scale returned by the codebook normalization equals the chunk's scale.
No scale is shared across chunks. -/
theorem claim_C1_amended (chunks : List Mat) (raw_codes : Mat)
    (feature_list : List String) (i : Nat) (hi : i < chunks.length) :
    (add_vqs_run chunks raw_codes feature_list).getD i []
      = vq_vq (make_data_clusterable (chunks.getD i []) feature_list none false).1
          (make_data_clusterable raw_codes feature_list
            (some (make_data_clusterable (chunks.getD i []) feature_list none false).2)
            false).1
    ∧ (make_data_clusterable raw_codes feature_list
          (some (make_data_clusterable (chunks.getD i []) feature_list none false).2)
          false).2
        = (make_data_clusterable (chunks.getD i []) feature_list none false).2 := by
  constructor
  · unfold add_vqs_run
    rw [getD_map_lt _ chunks i [] [] hi]
    rfl
  · show fixZeros (fixZeros (matStd (mdcStep3 (chunks.getD i []) feature_list false)))
      = fixZeros (matStd (mdcStep3 (chunks.getD i []) feature_list false))
    exact fixZeros_idem _

/-- Witness for the amended C1 at a concrete one-chunk run. -/
theorem claim_C1_amended_witness :
    (add_vqs_run [[[1]]] [[1]] ["InsertionQV"]).getD 0 []
      = vq_vq (make_data_clusterable (([[[1]]] : List Mat).getD 0 []) ["InsertionQV"] none false).1
          (make_data_clusterable [[1]] ["InsertionQV"]
            (some (make_data_clusterable (([[[1]]] : List Mat).getD 0 []) ["InsertionQV"] none false).2)
            false).1
    ∧ (make_data_clusterable [[1]] ["InsertionQV"]
          (some (make_data_clusterable (([[[1]]] : List Mat).getD 0 []) ["InsertionQV"] none false).2)
          false).2
        = (make_data_clusterable (([[[1]]] : List Mat).getD 0 []) ["InsertionQV"] none false).2 :=
  claim_C1_amended [[[1]]] [[1]] ["InsertionQV"] 0 (by decide)

/-- C1 counterexample: a concrete two-chunk cmp.h5 run (schema
[DeletionQV, InsertionQV], codebook [[3,0],[0,3]]).  The first chunk has
per-column scale [1,4], the second [4,1].  The source recomputes the
scale from each chunk (`std_dev=None` on every `get_code_indices` call),
assigning [[1,0],[0,1]]; the run the claim describes — every later chunk
and the codebook whitened with the first chunk's scale — would assign
[[1,0],[1,0]].  The two runs differ, so the claim is false on the code. -/
theorem claim_C1_counterexample :
    add_vqs_run [[[0, 0], [2, 8]], [[0, 0], [8, 2]]] [[3, 0], [0, 3]]
        ["DeletionQV", "InsertionQV"]
      = [[1, 0], [0, 1]]
    ∧ firstChunkScaleRun [[[0, 0], [2, 8]], [[0, 0], [8, 2]]] [[3, 0], [0, 3]]
        ["DeletionQV", "InsertionQV"]
      = [[1, 0], [1, 0]]
    ∧ add_vqs_run [[[0, 0], [2, 8]], [[0, 0], [8, 2]]] [[3, 0], [0, 3]]
        ["DeletionQV", "InsertionQV"]
      ≠ firstChunkScaleRun [[[0, 0], [2, 8]], [[0, 0], [8, 2]]] [[3, 0], [0, 3]]
        ["DeletionQV", "InsertionQV"] := by
  have hsqrt1 : Rat.sqrt (1 : ℚ) = 1 := by
    have h := Rat.sqrt_eq (1 : ℚ)
    rw [mul_one, abs_one] at h
    exact h
  have hsqrt16 : Rat.sqrt (16 : ℚ) = 4 := by
    rw [show (16 : ℚ) = 4 * 4 from by norm_num, Rat.sqrt_eq]
    norm_num
  have hids1 : mdcStep3 [[0, 0], [2, 8]] ["DeletionQV", "InsertionQV"] false
      = [[0, 0], [2, 8]] := by
    unfold mdcStep3 mdcStep2
    rw [if_neg (by decide), if_neg (by decide)]
    rfl
  have hids2 : mdcStep3 [[0, 0], [8, 2]] ["DeletionQV", "InsertionQV"] false
      = [[0, 0], [8, 2]] := by
    unfold mdcStep3 mdcStep2
    rw [if_neg (by decide), if_neg (by decide)]
    rfl
  have hidsC : mdcStep3 [[3, 0], [0, 3]] ["DeletionQV", "InsertionQV"] false
      = [[3, 0], [0, 3]] := by
    unfold mdcStep3 mdcStep2
    rw [if_neg (by decide), if_neg (by decide)]
    rfl
  have hvar1 : colVar [0, 2] = 1 := by norm_num [colVar, colMean]
  have hvar2 : colVar [0, 8] = 16 := by norm_num [colVar, colMean]
  have hstd1 : matStd [[0, 0], [2, 8]] = [1, 4] := by
    show [colStd (getCol 0 [[0, 0], [2, 8]]), colStd (getCol 1 [[0, 0], [2, 8]])]
      = [1, 4]
    rw [show getCol 0 [[0, 0], [2, 8]] = [0, 2] from rfl,
      show getCol 1 [[0, 0], [2, 8]] = [0, 8] from rfl]
    unfold colStd
    rw [hvar1, hvar2, hsqrt1, hsqrt16]
  have hstd2 : matStd [[0, 0], [8, 2]] = [4, 1] := by
    show [colStd (getCol 0 [[0, 0], [8, 2]]), colStd (getCol 1 [[0, 0], [8, 2]])]
      = [4, 1]
    rw [show getCol 0 [[0, 0], [8, 2]] = [0, 8] from rfl,
      show getCol 1 [[0, 0], [8, 2]] = [0, 2] from rfl]
    unfold colStd
    rw [hvar1, hvar2, hsqrt1, hsqrt16]
  have hs1 : (make_data_clusterable [[0, 0], [2, 8]] ["DeletionQV", "InsertionQV"]
      none false).2 = [1, 4] := by
    show fixZeros (matStd (mdcStep3 [[0, 0], [2, 8]] ["DeletionQV", "InsertionQV"] false))
      = [1, 4]
    rw [hids1, hstd1]
    decide
  have hs2 : (make_data_clusterable [[0, 0], [8, 2]] ["DeletionQV", "InsertionQV"]
      none false).2 = [4, 1] := by
    show fixZeros (matStd (mdcStep3 [[0, 0], [8, 2]] ["DeletionQV", "InsertionQV"] false))
      = [4, 1]
    rw [hids2, hstd2]
    decide
  have hw1 : (make_data_clusterable [[0, 0], [2, 8]] ["DeletionQV", "InsertionQV"]
      none false).1 = [[0, 0], [2, 2]] := by
    show divCols (mdcStep3 [[0, 0], [2, 8]] ["DeletionQV", "InsertionQV"] false)
      (mdcScale [[0, 0], [2, 8]] ["DeletionQV", "InsertionQV"] none false)
      = [[0, 0], [2, 2]]
    rw [hids1,
      show mdcScale [[0, 0], [2, 8]] ["DeletionQV", "InsertionQV"] none false
        = [1, 4] from hs1]
    norm_num [divCols, mapWithIdx]
  have hw2 : (make_data_clusterable [[0, 0], [8, 2]] ["DeletionQV", "InsertionQV"]
      none false).1 = [[0, 0], [2, 2]] := by
    show divCols (mdcStep3 [[0, 0], [8, 2]] ["DeletionQV", "InsertionQV"] false)
      (mdcScale [[0, 0], [8, 2]] ["DeletionQV", "InsertionQV"] none false)
      = [[0, 0], [2, 2]]
    rw [hids2,
      show mdcScale [[0, 0], [8, 2]] ["DeletionQV", "InsertionQV"] none false
        = [4, 1] from hs2]
    norm_num [divCols, mapWithIdx]
  have hwC1 : (make_data_clusterable [[3, 0], [0, 3]] ["DeletionQV", "InsertionQV"]
      (some [1, 4]) false).1 = [[3, 0], [0, 3/4]] := by
    show divCols (mdcStep3 [[3, 0], [0, 3]] ["DeletionQV", "InsertionQV"] false)
      (fixZeros [1, 4]) = [[3, 0], [0, 3/4]]
    rw [hidsC, show fixZeros [1, 4] = ([1, 4] : List ℚ) from by decide]
    norm_num [divCols, mapWithIdx]
  have hwC2 : (make_data_clusterable [[3, 0], [0, 3]] ["DeletionQV", "InsertionQV"]
      (some [4, 1]) false).1 = [[3/4, 0], [0, 3]] := by
    show divCols (mdcStep3 [[3, 0], [0, 3]] ["DeletionQV", "InsertionQV"] false)
      (fixZeros [4, 1]) = [[3/4, 0], [0, 3]]
    rw [hidsC, show fixZeros [4, 1] = ([4, 1] : List ℚ) from by decide]
    norm_num [divCols, mapWithIdx]
  have hw2s1 : (make_data_clusterable [[0, 0], [8, 2]] ["DeletionQV", "InsertionQV"]
      (some [1, 4]) false).1 = [[0, 0], [8, 1/2]] := by
    show divCols (mdcStep3 [[0, 0], [8, 2]] ["DeletionQV", "InsertionQV"] false)
      (fixZeros [1, 4]) = [[0, 0], [8, 1/2]]
    rw [hids2, show fixZeros [1, 4] = ([1, 4] : List ℚ) from by decide]
    norm_num [divCols, mapWithIdx]
  have hv1 : vq_vq [[0, 0], [2, 2]] [[3, 0], [0, 3/4]] = [1, 0] := by
    norm_num [vq_vq, sqDist, argminIdx]
  have hv2 : vq_vq [[0, 0], [2, 2]] [[3/4, 0], [0, 3]] = [0, 1] := by
    norm_num [vq_vq, sqDist, argminIdx]
  have hv3 : vq_vq [[0, 0], [8, 1/2]] [[3, 0], [0, 3/4]] = [1, 0] := by
    norm_num [vq_vq, sqDist, argminIdx]
  have hg1 : get_code_indices [[0, 0], [2, 8]] [[3, 0], [0, 3]]
      ["DeletionQV", "InsertionQV"] = [1, 0] := by
    show vq_vq (make_data_clusterable [[0, 0], [2, 8]] ["DeletionQV", "InsertionQV"]
        none false).1
      (make_data_clusterable [[3, 0], [0, 3]] ["DeletionQV", "InsertionQV"]
        (some (make_data_clusterable [[0, 0], [2, 8]] ["DeletionQV", "InsertionQV"]
          none false).2) false).1 = [1, 0]
    rw [hs1, hw1, hwC1, hv1]
  have hg2 : get_code_indices [[0, 0], [8, 2]] [[3, 0], [0, 3]]
      ["DeletionQV", "InsertionQV"] = [0, 1] := by
    show vq_vq (make_data_clusterable [[0, 0], [8, 2]] ["DeletionQV", "InsertionQV"]
        none false).1
      (make_data_clusterable [[3, 0], [0, 3]] ["DeletionQV", "InsertionQV"]
        (some (make_data_clusterable [[0, 0], [8, 2]] ["DeletionQV", "InsertionQV"]
          none false).2) false).1 = [0, 1]
    rw [hs2, hw2, hwC2, hv2]
  have hrun : add_vqs_run [[[0, 0], [2, 8]], [[0, 0], [8, 2]]] [[3, 0], [0, 3]]
      ["DeletionQV", "InsertionQV"] = [[1, 0], [0, 1]] := by
    show [get_code_indices [[0, 0], [2, 8]] [[3, 0], [0, 3]]
        ["DeletionQV", "InsertionQV"],
      get_code_indices [[0, 0], [8, 2]] [[3, 0], [0, 3]]
        ["DeletionQV", "InsertionQV"]] = [[1, 0], [0, 1]]
    rw [hg1, hg2]
  have hspec : firstChunkScaleRun [[[0, 0], [2, 8]], [[0, 0], [8, 2]]]
      [[3, 0], [0, 3]] ["DeletionQV", "InsertionQV"] = [[1, 0], [1, 0]] := by
    show [vq_vq (make_data_clusterable [[0, 0], [2, 8]] ["DeletionQV", "InsertionQV"]
          none false).1
        (make_data_clusterable [[3, 0], [0, 3]] ["DeletionQV", "InsertionQV"]
          (some (make_data_clusterable [[0, 0], [2, 8]] ["DeletionQV", "InsertionQV"]
            none false).2) false).1,
      vq_vq (make_data_clusterable [[0, 0], [8, 2]] ["DeletionQV", "InsertionQV"]
          (some (make_data_clusterable [[0, 0], [2, 8]] ["DeletionQV", "InsertionQV"]
            none false).2) false).1
        (make_data_clusterable [[3, 0], [0, 3]] ["DeletionQV", "InsertionQV"]
          (some (make_data_clusterable [[0, 0], [2, 8]] ["DeletionQV", "InsertionQV"]
            none false).2) false).1] = [[1, 0], [1, 0]]
    rw [hs1, hw1, hwC1, hw2s1, hv1, hv3]
  refine ⟨hrun, hspec, ?_⟩
  rw [hrun, hspec]
  decide

lemma totalRows_nil : totalRows [] = 0 := rfl

lemma totalRows_cons (c : Chunk) (l : List Chunk) :
    totalRows (c :: l) = chunkLen c + totalRows l := by
  simp [totalRows]

lemma totalRows_append (a b : List Chunk) :
    totalRows (a ++ b) = totalRows a + totalRows b := by
  simp [totalRows]

lemma gcsF_sum (cs : Nat) (hcs : 0 < cs) :
    ∀ (fuel glen pos : Nat), glen - pos ≤ fuel →
      sumLens (groupChunkStartsF cs fuel glen pos) = glen - pos := by
  intro fuel
  induction fuel with
  | zero =>
    intro glen pos h
    simp only [groupChunkStartsF, sumLens]
    omega
  | succ f ih =>
    intro glen pos h
    unfold groupChunkStartsF
    by_cases hc : pos < glen ∧ 0 < cs
    · rw [if_pos hc]
      have hrec := ih glen (pos + min (glen - pos) cs) (by omega)
      simp only [sumLens, hrec]
      omega
    · rw [if_neg hc]
      simp only [sumLens]
      omega

lemma gcsF_consec (cs : Nat) :
    ∀ (fuel glen pos : Nat), consecFrom glen pos (groupChunkStartsF cs fuel glen pos) := by
  intro fuel
  induction fuel with
  | zero =>
    intro glen pos
    simp [groupChunkStartsF, consecFrom]
  | succ f ih =>
    intro glen pos
    unfold groupChunkStartsF
    by_cases hc : pos < glen ∧ 0 < cs
    · rw [if_pos hc]
      exact ⟨rfl, by omega, by omega, ih glen (pos + min (glen - pos) cs)⟩
    · rw [if_neg hc]
      simp [consecFrom]

lemma gcsF_len_le (cs : Nat) :
    ∀ (fuel glen pos : Nat), ∀ se ∈ groupChunkStartsF cs fuel glen pos,
      se.2 - se.1 ≤ cs := by
  intro fuel
  induction fuel with
  | zero =>
    intro glen pos se hse
    simp [groupChunkStartsF] at hse
  | succ f ih =>
    intro glen pos se hse
    unfold groupChunkStartsF at hse
    by_cases hc : pos < glen ∧ 0 < cs
    · rw [if_pos hc] at hse
      rcases List.mem_cons.mp hse with h | h
      · subst h
        simp only []
        omega
      · exact ih glen (pos + min (glen - pos) cs) se h
    · rw [if_neg hc] at hse
      simp at hse

lemma applyCap_sub (m : Nat) :
    ∀ (l : List Chunk) (t : Nat), ∃ rest, applyCap m t l ++ rest = l := by
  intro l
  induction l with
  | nil => intro t; exact ⟨[], rfl⟩
  | cons c cs ih =>
    intro t
    unfold applyCap
    by_cases hc : m ≤ t + chunkLen c
    · rw [if_pos hc]
      exact ⟨cs, rfl⟩
    · rw [if_neg hc]
      obtain ⟨rest, hr⟩ := ih (t + chunkLen c)
      exact ⟨rest, by rw [List.cons_append, hr]⟩

lemma applyCap_of_lt (m : Nat) :
    ∀ (l : List Chunk) (t : Nat), t + totalRows l < m → applyCap m t l = l := by
  intro l
  induction l with
  | nil => intro t _; rfl
  | cons c cs ih =>
    intro t h
    rw [totalRows_cons] at h
    unfold applyCap
    rw [if_neg (by omega)]
    rw [ih (t + chunkLen c) (by omega)]

lemma applyCap_reached (m : Nat) :
    ∀ (l : List Chunk) (t : Nat), m ≤ t + totalRows l →
      m ≤ t + totalRows (applyCap m t l) := by
  intro l
  induction l with
  | nil => intro t h; simpa [totalRows_nil] using h
  | cons c cs ih =>
    intro t h
    rw [totalRows_cons] at h
    unfold applyCap
    by_cases hc : m ≤ t + chunkLen c
    · rw [if_pos hc, totalRows_cons, totalRows_nil]
      omega
    · rw [if_neg hc, totalRows_cons]
      have := ih (t + chunkLen c) (by omega)
      omega

lemma applyCap_upper (m cs : Nat) :
    ∀ (l : List Chunk) (t : Nat), t < m → (∀ c ∈ l, chunkLen c ≤ cs) →
      t + totalRows (applyCap m t l) < m + cs := by
  intro l
  induction l with
  | nil =>
    intro t ht _
    unfold applyCap
    rw [totalRows_nil]
    omega
  | cons c l0 ih =>
    intro t ht hlen
    unfold applyCap
    by_cases hc : m ≤ t + chunkLen c
    · rw [if_pos hc, totalRows_cons, totalRows_nil]
      have := hlen c (List.mem_cons_self c l0)
      omega
    · rw [if_neg hc, totalRows_cons]
      have := ih (t + chunkLen c) (by omega)
        (fun d hd => hlen d (List.mem_cons_of_mem c hd))
      omega

lemma applyCap_stops (m : Nat) :
    ∀ (l : List Chunk) (t : Nat) (pre : List Chunk) (c : Chunk) (rest : List Chunk),
      applyCap m t l = pre ++ c :: rest → rest ≠ [] →
      t + totalRows pre + chunkLen c < m := by
  intro l
  induction l with
  | nil =>
    intro t pre c rest heq _
    simp [applyCap] at heq
  | cons c0 l0 ih =>
    intro t pre c rest heq hne
    unfold applyCap at heq
    by_cases hc : m ≤ t + chunkLen c0
    · rw [if_pos hc] at heq
      cases pre with
      | nil =>
        simp at heq
        exact absurd heq.2 hne
      | cons p ps =>
        simp at heq
    · rw [if_neg hc] at heq
      cases pre with
      | nil =>
        simp at heq
        obtain ⟨h1, -⟩ := heq
        rw [totalRows_nil, ← h1]
        omega
      | cons p ps =>
        simp at heq
        obtain ⟨h1, h2⟩ := heq
        have := ih (t + chunkLen c0) ps c rest h2 hne
        rw [totalRows_cons, ← h1]
        omega

lemma totalRows_map_mk (p : String) (l : List (Nat × Nat)) :
    totalRows (l.map (fun se => ⟨p, se.1, se.2⟩)) = sumLens l := by
  induction l with
  | nil => rfl
  | cons se rest ih =>
    rw [List.map_cons, totalRows_cons, ih]
    rfl

lemma sumLens_groupChunkStarts (cs glen : Nat) (hcs : 0 < cs) :
    sumLens (groupChunkStarts cs glen 0) = glen := by
  unfold groupChunkStarts
  rw [gcsF_sum cs hcs (glen - 0) glen 0 (le_refl _)]
  omega

lemma consec_groupChunkStarts (cs glen pos : Nat) :
    consecFrom glen pos (groupChunkStarts cs glen pos) := by
  unfold groupChunkStarts
  exact gcsF_consec cs _ glen pos

lemma len_le_groupChunkStarts (cs glen pos : Nat) :
    ∀ se ∈ groupChunkStarts cs glen pos, se.2 - se.1 ≤ cs := by
  unfold groupChunkStarts
  exact gcsF_len_le cs _ glen pos

lemma totalRows_allChunks (groups : List (String × Nat)) (cs : Nat) (hcs : 0 < cs) :
    totalRows (allChunks groups cs) = (groups.map (fun g => g.2)).sum := by
  induction groups with
  | nil => rfl
  | cons g gs ih =>
    show totalRows (((groupChunkStarts cs g.2 0).map (fun se => ⟨g.1, se.1, se.2⟩))
      ++ allChunks gs cs) = _
    rw [totalRows_append, totalRows_map_mk, sumLens_groupChunkStarts cs g.2 hcs, ih,
      List.map_cons, List.sum_cons]

lemma chunkLen_le_allChunks (groups : List (String × Nat)) (cs : Nat) :
    ∀ c ∈ allChunks groups cs, chunkLen c ≤ cs := by
  intro c hc
  simp only [allChunks, List.mem_flatMap, List.mem_map] at hc
  obtain ⟨g, hg, se, hse, rfl⟩ := hc
  simpa [chunkLen] using len_le_groupChunkStarts cs g.2 0 se hse

/-- C3 counterexample: one group of length 8, chunk size 4, row cap 5.
The chunker emits both 4-row chunks — the stop check runs only after a
whole chunk is yielded — so the emitted ranges cover 8 rows, not the
min(L, cap) = 5 rows the claim requires: no partition of [0, 5) is
possible. -/
theorem claim_C3_counterexample :
    cmph5_chunker [("g", 8)] 4 (some 5) = [⟨"g", 0, 4⟩, ⟨"g", 4, 8⟩]
    ∧ totalRows (cmph5_chunker [("g", 8)] 4 (some 5)) = 8
    ∧ min 8 5 = 5
    ∧ totalRows (cmph5_chunker [("g", 8)] 4 (some 5)) ≠ min 8 5 := by
  refine ⟨?_, ?_, ?_, ?_⟩ <;> decide

/-- C3 amended: with a positive chunk size and positive cap, the emitted
chunks are a prefix of the full per-group tiling; the full tiling cuts
every group into consecutive, nonempty, in-bounds ranges whose lengths
sum to the group length (so every offset of every group is covered
exactly once and no chunk spans two groups); every emitted chunk has at
most `chunkSize` rows; the total emitted row count is at least
min(L, cap) but may overshoot the cap by up to one chunk (it is below
cap + chunkSize); and emission stops at the first chunk whose cumulative
row count reaches the cap: every non-final emitted chunk has cumulative
count strictly below the cap. -/
theorem claim_C3_amended (groups : List (String × Nat)) (chunkSize cap : Nat)
    (hcs : 0 < chunkSize) (hcap : 0 < cap) :
    (∃ rest, cmph5_chunker groups chunkSize (some cap) ++ rest
        = allChunks groups chunkSize)
    ∧ (∀ g ∈ groups, consecFrom g.2 0 (groupChunkStarts chunkSize g.2 0)
        ∧ sumLens (groupChunkStarts chunkSize g.2 0) = g.2)
    ∧ (∀ c ∈ cmph5_chunker groups chunkSize (some cap), chunkLen c ≤ chunkSize)
    ∧ min ((groups.map (fun g => g.2)).sum) cap
        ≤ totalRows (cmph5_chunker groups chunkSize (some cap))
    ∧ totalRows (cmph5_chunker groups chunkSize (some cap)) < cap + chunkSize
    ∧ (∀ pre c rest, cmph5_chunker groups chunkSize (some cap) = pre ++ c :: rest →
        rest ≠ [] → totalRows pre + chunkLen c < cap) := by
  have hchunker : cmph5_chunker groups chunkSize (some cap)
      = applyCap cap 0 (allChunks groups chunkSize) := rfl
  have hpre : ∃ rest, cmph5_chunker groups chunkSize (some cap) ++ rest
      = allChunks groups chunkSize := by
    rw [hchunker]
    exact applyCap_sub cap (allChunks groups chunkSize) 0
  refine ⟨hpre, ?_, ?_, ?_, ?_, ?_⟩
  · intro g _
    exact ⟨consec_groupChunkStarts chunkSize g.2 0,
      sumLens_groupChunkStarts chunkSize g.2 hcs⟩
  · intro c hc
    obtain ⟨rest, hrest⟩ := hpre
    exact chunkLen_le_allChunks groups chunkSize c
      (hrest ▸ List.mem_append_left rest hc)
  · rw [hchunker]
    by_cases hle : cap ≤ totalRows (allChunks groups chunkSize)
    · have h := applyCap_reached cap (allChunks groups chunkSize) 0 (by omega)
      calc min ((groups.map (fun g => g.2)).sum) cap ≤ cap := min_le_right _ _
        _ ≤ _ := by omega
    · rw [applyCap_of_lt cap (allChunks groups chunkSize) 0 (by omega),
        totalRows_allChunks groups chunkSize hcs]
      exact min_le_left _ _
  · rw [hchunker]
    have h := applyCap_upper cap chunkSize (allChunks groups chunkSize) 0 hcap
      (chunkLen_le_allChunks groups chunkSize)
    omega
  · intro pre c rest heq hne
    have h := applyCap_stops cap (allChunks groups chunkSize) 0 pre c rest
      (by rw [← hchunker]; exact heq) hne
    omega

/-- Witness for the amended C3 at the concrete store of the
counterexample: one group of length 8, chunk size 4, cap 5. -/
theorem claim_C3_amended_witness :
    (∃ rest, cmph5_chunker [("g", 8)] 4 (some 5) ++ rest = allChunks [("g", 8)] 4)
    ∧ (∀ g ∈ [("g", 8)], consecFrom g.2 0 (groupChunkStarts 4 g.2 0)
        ∧ sumLens (groupChunkStarts 4 g.2 0) = g.2)
    ∧ (∀ c ∈ cmph5_chunker [("g", 8)] 4 (some 5), chunkLen c ≤ 4)
    ∧ min (([("g", 8)].map (fun g => g.2)).sum) 5
        ≤ totalRows (cmph5_chunker [("g", 8)] 4 (some 5))
    ∧ totalRows (cmph5_chunker [("g", 8)] 4 (some 5)) < 5 + 4
    ∧ (∀ pre c rest, cmph5_chunker [("g", 8)] 4 (some 5) = pre ++ c :: rest →
        rest ≠ [] → totalRows pre + chunkLen c < 5) :=
  claim_C3_amended [("g", 8)] 4 5 (by decide) (by decide)
